import Mathlib

/-!
Verification development for the constant-synthesis core of VectorSynth
(src/lib/constantsynth.cpp).

The SMT expression type and its operations (construction, substitution,
simplification, satisfiability checking, model evaluation) are external
collaborators of the verified unit; they are modelled here as a small
deep-embedded term language with an evaluation semantics, faithful to the
interface contracts the unit relies on.  Everything else (preprocess,
is_undef, print_single_varval, print_varval, error, ConstantSynth::synthesize)
is translated from the source.
-/

set_option maxRecDepth 4000

namespace VectorSynth

/-- Modelled from the spec: sorts of symbolic expressions consumed by this
unit — booleans and fixed-width bit-vectors (the classifier variables have
width 2). -/
inductive Srt where
  | bool : Srt
  | bv : Nat → Srt
deriving DecidableEq, Repr

/-- Modelled from the spec: the external "Symbolic Expression" collaborator —
an immutable value-typed term (boolean / bit-vector / quantifier node) with
structural equality, composition operators and substitution. -/
inductive Expr where
  | boolLit : Bool → Expr
  | bvLit : Nat → Nat → Expr
  | evar : String → Srt → Expr
  | andE : Expr → Expr → Expr
  | orE : Expr → Expr → Expr
  | notE : Expr → Expr
  | impE : Expr → Expr → Expr
  | eqE : Expr → Expr → Expr
  | iteE : Expr → Expr → Expr → Expr
  | allE : String → Srt → Expr → Expr
deriving DecidableEq, Repr

/-- Semantic values: a boolean or a bit-vector of a given width. -/
inductive Val where
  | vb : Bool → Val
  | vbv : Nat → Nat → Val
deriving DecidableEq, Repr

/-- Coerce a semantic value to a boolean (junk-tolerant). -/
def toB : Val → Bool
  | Val.vb b => b
  | Val.vbv _ _ => false

/-- Coerce a semantic value to a bit-vector value of width w (junk-tolerant). -/
def toN (w : Nat) : Val → Nat
  | Val.vbv v _ => v % 2 ^ w
  | Val.vb _ => 0

/-- Force a value into the carrier of a sort. -/
def sortFix : Srt → Val → Val
  | Srt.bool, v => Val.vb (toB v)
  | Srt.bv w, v => Val.vbv (toN w v) w

/-- An environment assigns a value to every (name, sort) pair. -/
def Env : Type := String → Srt → Val

/-- Environment update at one (name, sort) key. -/
def upd (r : Env) (n : String) (s : Srt) (v : Val) : Env :=
  fun m t => if m = n ∧ t = s then v else r m t

/-- All semantic values of a sort (both sorts are finite). -/
def domainList : Srt → List Val
  | Srt.bool => [Val.vb true, Val.vb false]
  | Srt.bv w => (List.range (2 ^ w)).map (fun i => Val.vbv i w)

/-- Evaluation of an expression under an environment.  Quantifiers range over
the finite carrier of the bound variable's sort. -/
def eval : Expr → Env → Val
  | Expr.boolLit b, _ => Val.vb b
  | Expr.bvLit v w, _ => Val.vbv (v % 2 ^ w) w
  | Expr.evar n s, r => sortFix s (r n s)
  | Expr.andE a b, r => Val.vb (toB (eval a r) && toB (eval b r))
  | Expr.orE a b, r => Val.vb (toB (eval a r) || toB (eval b r))
  | Expr.notE a, r => Val.vb (! toB (eval a r))
  | Expr.impE a b, r => Val.vb (! toB (eval a r) || toB (eval b r))
  | Expr.eqE a b, r => Val.vb (decide (eval a r = eval b r))
  | Expr.iteE c a b, r => if toB (eval c r) then eval a r else eval b r
  | Expr.allE n s b, r =>
      Val.vb ((domainList s).all (fun v => toB (eval b (upd r n s v))))

/-- Boolean truth of an expression under an environment. -/
def evalB (e : Expr) (r : Env) : Bool := toB (eval e r)

/-- Modelled from the spec: expr::isFalse — the term is the literal false. -/
def isFalseE (e : Expr) : Bool := decide (e = Expr.boolLit false)

/-- Modelled from the spec: expr::isConst — the term is a value constant
(boolean literal or numeral). -/
def isConstE : Expr → Bool
  | Expr.boolLit _ => true
  | Expr.bvLit _ _ => true
  | _ => false

/-- Modelled from the spec: expr::isBool — the term is a boolean variable or
otherwise boolean-sorted; the preprocessor only applies it to quantified
variables, so only the variable case matters. -/
def isBoolE : Expr → Bool
  | Expr.boolLit _ => true
  | Expr.evar _ Srt.bool => true
  | Expr.andE _ _ => true
  | Expr.orE _ _ => true
  | Expr.notE _ => true
  | Expr.impE _ _ => true
  | Expr.eqE _ _ => true
  | Expr.allE _ _ _ => true
  | _ => false

/-- Modelled from the spec: substitution e.subst(var, r) of the variable with
name n and sort s by the term t (used on quantifier-free terms only). -/
def Expr.subst : Expr → String → Srt → Expr → Expr
  | Expr.evar m u, n, s, t => if m = n ∧ u = s then t else Expr.evar m u
  | Expr.boolLit b, _, _, _ => Expr.boolLit b
  | Expr.bvLit v w, _, _, _ => Expr.bvLit v w
  | Expr.andE a b, n, s, t => Expr.andE (a.subst n s t) (b.subst n s t)
  | Expr.orE a b, n, s, t => Expr.orE (a.subst n s t) (b.subst n s t)
  | Expr.notE a, n, s, t => Expr.notE (a.subst n s t)
  | Expr.impE a b, n, s, t => Expr.impE (a.subst n s t) (b.subst n s t)
  | Expr.eqE a b, n, s, t => Expr.eqE (a.subst n s t) (b.subst n s t)
  | Expr.iteE c a b, n, s, t =>
      Expr.iteE (c.subst n s t) (a.subst n s t) (b.subst n s t)
  | Expr.allE m u b, n, s, t => Expr.allE m u (b.subst n s t)

/-- Quantifier-freeness of a term. -/
def qf : Expr → Bool
  | Expr.allE _ _ _ => false
  | Expr.andE a b => qf a && qf b
  | Expr.orE a b => qf a && qf b
  | Expr.notE a => qf a
  | Expr.impE a b => qf a && qf b
  | Expr.eqE a b => qf a && qf b
  | Expr.iteE c a b => qf c && qf a && qf b
  | _ => true

/-- Modelled from the spec: expr::simplify — constant folding, preserving the
semantics of the term. -/
def simplify : Expr → Expr
  | Expr.andE a b =>
      match simplify a, simplify b with
      | Expr.boolLit x, Expr.boolLit y => Expr.boolLit (x && y)
      | a1, b1 => Expr.andE a1 b1
  | Expr.orE a b =>
      match simplify a, simplify b with
      | Expr.boolLit x, Expr.boolLit y => Expr.boolLit (x || y)
      | a1, b1 => Expr.orE a1 b1
  | Expr.notE a =>
      match simplify a with
      | Expr.boolLit x => Expr.boolLit (! x)
      | a1 => Expr.notE a1
  | Expr.impE a b =>
      match simplify a, simplify b with
      | Expr.boolLit x, Expr.boolLit y => Expr.boolLit (! x || y)
      | a1, b1 => Expr.impE a1 b1
  | Expr.eqE a b =>
      match simplify a, simplify b with
      | Expr.boolLit x, Expr.boolLit y => Expr.boolLit (decide (x = y))
      | Expr.bvLit x w, Expr.bvLit y w2 =>
          Expr.boolLit (decide (x % 2 ^ w = y % 2 ^ w2 ∧ w = w2))
      | a1, b1 => Expr.eqE a1 b1
  | Expr.iteE c a b =>
      match simplify c with
      | Expr.boolLit x => if x then simplify a else simplify b
      | c1 => Expr.iteE c1 (simplify a) (simplify b)
  | Expr.allE n s b => Expr.allE n s (simplify b)
  | e => e

/-- Modelled from the spec: expr::mkForAll over a set of variables — the
universal closure of a term (identity on the empty set). -/
def mkForAll (vs : List (String × Srt)) (e : Expr) : Expr :=
  vs.foldr (fun v acc => Expr.allE v.1 v.2 acc) e

/-- Free variables of a term, first-occurrence order, deduplicated
(expr::vars). -/
def freeVarsRaw : Expr → List (String × Srt)
  | Expr.boolLit _ => []
  | Expr.bvLit _ _ => []
  | Expr.evar n s => [(n, s)]
  | Expr.andE a b => freeVarsRaw a ++ freeVarsRaw b
  | Expr.orE a b => freeVarsRaw a ++ freeVarsRaw b
  | Expr.notE a => freeVarsRaw a
  | Expr.impE a b => freeVarsRaw a ++ freeVarsRaw b
  | Expr.eqE a b => freeVarsRaw a ++ freeVarsRaw b
  | Expr.iteE c a b => freeVarsRaw c ++ freeVarsRaw a ++ freeVarsRaw b
  | Expr.allE n s b => (freeVarsRaw b).filter (fun p => p ≠ (n, s))

/-- Deduplicated free variables of a term (expr::vars returns a set). -/
def varsOf (e : Expr) : List (String × Srt) := (freeVarsRaw e).dedup

/-- Syntactic sort of a term (expr::sort). -/
def srtOf : Expr → Srt
  | Expr.boolLit _ => Srt.bool
  | Expr.bvLit _ w => Srt.bv w
  | Expr.evar _ s => s
  | Expr.andE _ _ => Srt.bool
  | Expr.orE _ _ => Srt.bool
  | Expr.notE _ => Srt.bool
  | Expr.impE _ _ => Srt.bool
  | Expr.eqE _ _ => Srt.bool
  | Expr.iteE _ a _ => srtOf a
  | Expr.allE _ _ _ => Srt.bool

/-- Two environments agree outside a quantifier set. -/
def agreesOff (vs : List (String × Srt)) (r r2 : Env) : Prop :=
  ∀ m t, (m, t) ∉ vs → r2 m t = r m t

/-- Semantics of the universal closure of a term over a quantifier set: the
term is true in every environment agreeing with the given one outside the
set. -/
def holdsB (vs : List (String × Srt)) (e : Expr) (r : Env) : Prop :=
  ∀ r2, agreesOff vs r r2 → evalB e r2 = true

/-- One iteration of the boolean-elimination loop of preprocess
(src/lib/constantsynth.cpp lines 36-43): a boolean-typed quantified variable
is case-split into term[var:=true] ∧ term[var:=false] (each side simplified)
and erased from the quantifier set; other variables are skipped. -/
def elimStep (p : List (String × Srt) × Expr) (v : String × Srt) :
    List (String × Srt) × Expr :=
  if isBoolE (Expr.evar v.1 v.2) then
    (p.1.erase v,
     Expr.andE (simplify (p.2.subst v.1 v.2 (Expr.boolLit true)))
               (simplify (p.2.subst v.1 v.2 (Expr.boolLit false))))
  else p

/-- The full boolean-elimination loop of preprocess: iterate over the
original quantifier set qvars0, transforming (qvars, e). -/
def elimBools (q0 : List (String × Srt)) (e : Expr) :
    List (String × Srt) × Expr :=
  q0.foldl elimStep (q0, e)

/-- Kinds of named IR values seen by this unit, discriminating the
dynamic_cast checks of the source (Input / ConstantInput / other). -/
inductive ValueKind where
  | input : ValueKind
  | constantInput : ValueKind
  | instr : ValueKind
deriving DecidableEq, Repr

/-- A state value: the (value, non-poison) expression pair produced by
symbolic execution (smt StateValue); `valid` stands for StateValue::isValid
(a term was produced at all). -/
structure StateValue where
  value : Expr
  non_poison : Expr
  valid : Bool

/-- The slice of the IR type interface the renderer uses: a primitive type
carries its external value printer (Type::printVal); an aggregate carries its
struct/vector flag, its children and its external element extractor
(AggregateType::extract). -/
inductive Ty where
  | prim : (Expr → String) → Ty
  | agg : Bool → List Ty → (Nat → StateValue → StateValue) → Ty

/-- A named IR value as this unit sees it.  `text` stands for the external
operator<< rendering of the value declaration. -/
structure Value where
  name : String
  text : String
  kind : ValueKind
  type : Ty

/-- Input::getTyVar — the 2-bit classifier variable "ty_<name>" owned by
every input. -/
def getTyVar (v : Value) : Expr := Expr.evar ("ty_" ++ v.name) (Srt.bv 2)

/-- Configuration flags consumed by preprocess (util/config.h): disable the
undef (classifier value 1) or poison (classifier value 2) instantiation
branches. -/
structure Config where
  disable_undef_input : Bool
  disable_poison_input : Bool

/-- Modelled from the spec: the process-wide half-memory-budget governor
(hit_half_memory_limit), injected as a read-only capability; the argument
counts the queries this preprocess call has made so far. -/
def MemGov : Type := Nat → Bool

/-- The classifier constants {0 = concrete, 1 = undef, 2 = poison} as 2-bit
numerals (the nums array of preprocess). -/
def numsE (i : Nat) : Expr := Expr.bvLit i 2

/-- std::map operator[] followed by assignment (line 69): insert the key or
overwrite its value. -/
def mapSet (m : List (Expr × Expr)) (k v : Expr) : List (Expr × Expr) :=
  if m.any (fun p => p.1 = k) then m.map (fun p => if p.1 = k then (k, v) else p)
  else m ++ [(k, v)]

/-- std::map try_emplace (line 78): insert only if the key is absent. -/
def tryEmplace (m : List (Expr × Expr)) (k v : Expr) : List (Expr × Expr) :=
  if m.any (fun p => p.1 = k) then m else m ++ [(k, v)]

/-- The innermost loop of the instantiation heuristic (lines 61-79): try the
classifier values 0..2 for one map entry; a configuration flag skips a value;
a no-op substitution stores the entry unchanged via operator[] and stops
expanding (break); a branch simplifying to false is dropped; otherwise the
specialized term is inserted via try_emplace with the classifier equality
conjoined to the guard. -/
def tryVal (cfg : Config) (var : String) (ev : Expr × Expr)
    (acc : List (Expr × Expr)) : List Nat → List (Expr × Expr)
  | [] => acc
  | i :: rest =>
      if (cfg.disable_undef_input && i == 1)
          || (cfg.disable_poison_input && i == 2) then
        tryVal cfg var ev acc rest
      else if ev.1.subst var (Srt.bv 2) (numsE i) = ev.1 then
        mapSet acc (ev.1.subst var (Srt.bv 2) (numsE i)) ev.2
      else if isFalseE (simplify (ev.1.subst var (Srt.bv 2) (numsE i))) then
        tryVal cfg var ev acc rest
      else
        tryVal cfg var ev
          (tryEmplace acc (simplify (ev.1.subst var (Srt.bv 2) (numsE i)))
            (Expr.andE ev.2 (Expr.eqE (Expr.evar var (Srt.bv 2)) (numsE i))))
          rest

/-- One outer iteration of the instantiation loop (lines 60-81): rebuild
instances2 from every current entry of the instances map. -/
def stepMap (cfg : Config) (var : String) (insts : List (Expr × Expr)) :
    List (Expr × Expr) :=
  insts.foldl (fun acc ev => tryVal cfg var ev acc [0, 1, 2]) []

/-- The bounded instantiation loop over the source function's inputs
(lines 54-86): non-Input items are skipped; after each input the loop bails
out when the map holds 128 or more entries or the memory budget is
exhausted. -/
def instLoop (cfg : Config) (gov : MemGov) :
    Nat → List (Expr × Expr) → List Value → List (Expr × Expr)
  | _, insts, [] => insts
  | k, insts, i :: rest =>
      if i.kind = ValueKind.input then
        if 128 ≤ (stepMap cfg ("ty_" ++ i.name) insts).length
            ∨ gov k = true then
          stepMap cfg ("ty_" ++ i.name) insts
        else instLoop cfg gov (k + 1) (stepMap cfg ("ty_" ++ i.name) insts) rest
      else instLoop cfg gov k insts rest

/-- preprocess (src/lib/constantsynth.cpp lines 20-95): the memory fallback
on entry, boolean-variable elimination, the undef-vars/memory fallback, the
bounded instantiation loop seeded with (e, true), and the final disjunction
of guarded universal closures.  The disabled `if (0)` block of the source is
dead code and omitted. -/
def preprocess (srcInputs : List Value) (cfg : Config) (gov : MemGov)
    (qvars0 : List (String × Srt)) (undef_qvars : List (String × Srt))
    (e : Expr) : Expr :=
  if gov 0 = true then mkForAll qvars0 e
  else
    if undef_qvars.isEmpty = true ∨ gov 1 = true then
      mkForAll (elimBools qvars0 e).1 (elimBools qvars0 e).2
    else
      (instLoop cfg (fun k => gov (k + 2)) 0
          [((elimBools qvars0 e).2, Expr.boolLit true)] srcInputs).foldl
        (fun acc p =>
          Expr.orE acc (Expr.andE (mkForAll (elimBools qvars0 e).1 p.1) p.2))
        (Expr.boolLit false)

/-- Names of the five inputs of the C4 evaluation scenario. -/
def inNm (i : Nat) : String :=
  match i with
  | 0 => "a"
  | 1 => "b"
  | 2 => "c"
  | 3 => "d"
  | _ => "e"

/-- Classifier variable name of the i-th scenario input. -/
def tyNm (i : Nat) : String := "ty_" ++ inNm i

/-- A scenario atom after its classifier was substituted with value k. -/
def eqkW (k : Nat) : Expr :=
  Expr.eqE (Expr.bvLit k 2) (Expr.notE (Expr.bvLit 3 2))

/-- The unsubstituted scenario atom mentioning input i's classifier. -/
def atomI (i : Nat) : Expr :=
  Expr.eqE (Expr.evar (tyNm i) (Srt.bv 2)) (Expr.notE (Expr.bvLit 3 2))

/-- Position i of a scenario key: substituted by the i-th recorded classifier
value when there is one, the raw atom otherwise. -/
def pw (ks : List Nat) (i : Nat) : Expr :=
  match ks.get? i with
  | some k => eqkW k
  | none => atomI i

/-- The scenario key family: the partially-instantiated term after the
classifier values `ks` were substituted into the first `ks.length` atoms. -/
def keyW (ks : List Nat) : Expr :=
  Expr.andE (Expr.andE (Expr.andE (Expr.andE (pw ks 0) (pw ks 1)) (pw ks 2))
    (pw ks 3)) (pw ks 4)

/-- The three children of a partial instantiation: one per classifier
value. -/
def chT (t : List Nat) : List (List Nat) := [t ++ [0], t ++ [1], t ++ [2]]

/-- Tuple lists enumerating the instantiation state after each round. -/
def tupT : Nat → List (List Nat)
  | 0 => [[]]
  | j + 1 => (tupT j).flatMap chT

/-- Decode one scenario key position back to its classifier value. -/
def decP : Expr → Option Nat
  | Expr.eqE (Expr.bvLit k _) _ => some k
  | _ => none

/-- Decode a prefix of substituted positions. -/
def decL : List Expr → List Nat
  | [] => []
  | p :: ps =>
      match decP p with
      | some k => k :: decL ps
      | none => []

/-- Decode a scenario key back to its classifier tuple (left inverse of
keyW on tuples of length at most five). -/
def decK : Expr → List Nat
  | Expr.andE (Expr.andE (Expr.andE (Expr.andE p0 p1) p2) p3) p4 =>
      decL [p0, p1, p2, p3, p4]
  | _ => []

/-- The j-th scenario input. -/
def inW (j : Nat) : Value := ⟨inNm j, "", ValueKind.input, Ty.prim (fun _ => "")⟩

/-- The five scenario inputs. -/
def inputs5W : List Value := [inW 0, inW 1, inW 2, inW 3, inW 4]

/-- Scenario configuration: nothing disabled. -/
def cfgW : Config := ⟨false, false⟩

/-- Scenario memory governor: the budget is never exhausted. -/
def govW : MemGov := fun _ => false

/-- Modelled from the spec: a witness model returned with a satisfiable
result — it evaluates an expression under the valuation (`eval`, possibly
partially) or with unconstrained sub-terms forced to representatives
(`evalComplete`, the m.eval(e, true) form). -/
structure Model where
  eval : Expr → Expr
  evalComplete : Expr → Expr

/-- Modelled from the spec: the closed solver outcome set
{Invalid, Timeout, SolverError(reason), Skipped, Unsat, Sat(Model)}. -/
inductive Result where
  | invalid : Result
  | timeout : Result
  | errorR : String → Result
  | skip : Result
  | unsat : Result
  | sat : Model → Result

/-- Result::isSat. -/
def Result.isSat : Result → Bool
  | Result.sat _ => true
  | _ => false

/-- Result::getModel — only meaningful on a Sat result; on every other kind
the source's behavior is undefined, modelled as a junk model. -/
def Result.getModel : Result → Model
  | Result.sat m => m
  | _ => ⟨id, id⟩

/-- External probes used by the renderer: `probe` stands for
check_expr(..).isUnsat() and `isUndefName` for util's isUndef name check on a
variable. -/
structure Ext where
  probe : Expr → Bool
  isUndefName : Expr → Bool

/-- expr::isUInt — the numeral value of a bit-vector constant, if any. -/
def isUIntE : Expr → Option Nat
  | Expr.bvLit v _ => some v
  | _ => none

/-- is_undef (src/lib/constantsynth.cpp lines 97-102): a constant is never
undef; otherwise the solver is probed: the expression is undef iff
"for all its free variables, #undef ≠ e" is unsatisfiable. -/
def is_undef (probe : Expr → Bool) (e : Expr) : Bool :=
  if isConstE e then false
  else probe (mkForAll (varsOf e)
    (Expr.notE (Expr.eqE (Expr.evar "#undef" (srtOf e)) e)))

/-- print_single_varval (lines 104-152): invalid values render
"(invalid expr)"; a poison flag that is non-constant or false under the model
renders "poison"; an input whose 2-bit classifier evaluates to 1 renders
"undef" (the source's ENSURE/assert on other classifier shapes is modelled as
falling through); a model value that the is_undef probe classifies as undef
renders "undef"; otherwise the type's printer renders the completed value,
annotated when a non-constant partial value mentions an undef variable. -/
def print_single_varval (E : Ext) (m : Model) (var : Value)
    (pv : Expr → String) (val : StateValue) : String :=
  if val.valid = false then "(invalid expr)"
  else if isConstE (m.eval val.non_poison) = false
      ∨ m.eval val.non_poison = Expr.boolLit false then "poison"
  else if var.kind = ValueKind.input
      ∧ isUIntE (m.eval (getTyVar var)) = some 1 then "undef"
  else if is_undef E.probe (m.eval val.value) then "undef"
  else
    pv (m.evalComplete val.value)
      ++ (if isConstE (m.eval val.value) = false
            ∧ (varsOf (m.eval val.value)).any
                (fun p => E.isUndefName (Expr.evar p.1 p.2)) then
          "\t[based on undef value]"
        else "")

mutual

/-- print_varval (lines 154-170): non-aggregate types delegate to the single
renderer; aggregates render their elements recursively, comma-separated,
wrapped in struct or vector brackets. -/
def print_varval (E : Ext) (m : Model) (var : Value) :
    Ty → StateValue → String
  | Ty.prim pv, val => print_single_varval E m var pv val
  | Ty.agg isStruct children extract, val =>
      (if isStruct then "\x7b " else "< ")
        ++ String.intercalate ", "
            (print_varval_children E m var extract val 0 children)
        ++ (if isStruct then " \x7d" else " >")

/-- The element recursion of print_varval: child i renders
agg->extract(val, i) at the child type. -/
def print_varval_children (E : Ext) (m : Model) (var : Value)
    (extract : Nat → StateValue → StateValue) (val : StateValue) :
    Nat → List Ty → List String
  | _, [] => []
  | i, c :: cs =>
      print_varval E m var c (extract i val)
        :: print_varval_children E m var extract val (i + 1) cs

end

/-- The slice of a symbolically-executed program state consumed by the
diagnostic renderer: the ordered (value, state-value, used) triples, the
source/target flag, and the external memory renderer
(Memory::print under a model). -/
structure StateModel where
  values : List (Value × StateValue × Bool)
  isSource : Bool
  memPrint : Model → String

/-- The source-inputs section of error (lines 209-217): print every Input and
ConstantInput of the source state. -/
def errInputsLoop (E : Ext) (m : Model) :
    List (Value × StateValue × Bool) → String
  | [] => ""
  | (v, val, _) :: rest =>
      if v.kind = ValueKind.input ∨ v.kind = ValueKind.constantInput then
        v.text ++ " = " ++ print_varval E m v v.type val ++ "\n"
          ++ errInputsLoop E m rest
      else errInputsLoop E m rest

/-- The per-state value loop of error (lines 229-244): stop at the variable
under check; skip non-% names and inputs; with check_each_var, print each
name only once (the seen set persists across the two states, hence it is
threaded through and returned). -/
def errValsLoop (E : Ext) (cev : Bool) (m : Model) (var_name : String) :
    List String → List (Value × StateValue × Bool) → String × List String
  | seen, [] => ("", seen)
  | seen, (v, val, _) :: rest =>
      if v.name = var_name then ("", seen)
      else if v.name.front ≠ '%' ∨ v.kind = ValueKind.input then
        errValsLoop E cev m var_name seen rest
      else if cev then
        if v.name ∈ seen then errValsLoop E cev m var_name seen rest
        else
          let res := errValsLoop E cev m var_name (v.name :: seen) rest
          (v.text ++ " = " ++ print_varval E m v v.type val ++ "\n" ++ res.1,
           res.2)
      else
        let res := errValsLoop E cev m var_name seen rest
        (v.text ++ " = " ++ print_varval E m v v.type val ++ "\n" ++ res.1,
         res.2)

/-- error (lines 174-251): the four non-model result kinds append their fixed
diagnostic; every other result falls through to the counterexample path,
which renders the message, the source inputs, both states' values and
memories and the caller's extra printer, and appends the string with the
has-witness flag set.  (On Unsat this path calls getModel on a result that
has none — undefined behavior in the source, the junk model here.) -/
def error (E : Ext) (errs : List (String × Bool))
    (src_state tgt_state : StateModel) (r : Result) (var : Option Value)
    (msg : String) (check_each_var : Bool)
    (print_var_val : Model → String) : List (String × Bool) :=
  match r with
  | Result.invalid => errs ++ [("Invalid expr", false)]
  | Result.timeout => errs ++ [("Timeout", false)]
  | Result.errorR reason => errs ++ [("SMT Error: " ++ reason, false)]
  | Result.skip => errs ++ [("Skip", false)]
  | _ =>
      let var_name := match var with
        | some v => v.name
        | none => ""
      let m := r.getModel
      let s1 := msg
        ++ (if var_name = "" then ""
            else " for " ++ (match var with
              | some v => v.text
              | none => ""))
        ++ "\n\nExample:\n"
      let s2 := errInputsLoop E m src_state.values
      let p1 := errValsLoop E check_each_var m var_name [] src_state.values
      let p2 := errValsLoop E check_each_var m var_name p1.2 tgt_state.values
      let secSrc := (if check_each_var then ""
          else if src_state.isSource then "\nSource:\n" else "\nTarget:\n")
        ++ p1.1 ++ src_state.memPrint m
      let secTgt := (if check_each_var then ""
          else if tgt_state.isSource then "\nSource:\n" else "\nTarget:\n")
        ++ p2.1 ++ tgt_state.memPrint m
      errs ++ [(s1 ++ s2 ++ secSrc ++ secTgt ++ print_var_val m, true)]

/-- The main obligation's result handler (lines 342-388): the five non-Sat
kinds append their fixed diagnostic; Sat records, for every target-side Input
or ConstantInput whose name starts with "%_reservedc", its value evaluated
under the witness model (the handler's debug rendering goes to the external
config::dbg sink, not to the Errors collector, and is omitted). -/
def mainHandler (_E : Ext) (tgtVals : List (Value × StateValue × Bool))
    (r : Result) : List (String × Bool) × List (Value × Expr) :=
  match r with
  | Result.invalid => ([("Invalid expr", false)], [])
  | Result.timeout => ([("Timeout", false)], [])
  | Result.errorR reason => ([("SMT Error: " ++ reason, false)], [])
  | Result.skip => ([("Skip", false)], [])
  | Result.unsat => ([("Unsat", false)], [])
  | Result.sat m =>
      ([], tgtVals.foldl (fun acc x =>
          if (x.1.kind = ValueKind.input ∨ x.1.kind = ValueKind.constantInput)
              ∧ x.1.name.startsWith "%_reservedc" then
            acc ++ [(x.1, m.eval x.2.1.value)]
          else acc) [])

/-- The Sat-path recording of the main handler, as a direct filter: one
entry per reserved-prefixed target-side input, its value evaluated under the
model. -/
def reservedEntries (m : Model) (tv : List (Value × StateValue × Bool)) :
    List (Value × Expr) :=
  tv.filterMap (fun x =>
    if (x.1.kind = ValueKind.input ∨ x.1.kind = ValueKind.constantInput)
        ∧ x.1.name.startsWith "%_reservedc" then
      some (x.1, m.eval x.2.1.value)
    else none)

/-- The data ConstantSynth::synthesize works on once symbolic execution and
the precondition subtraction (lines 264-299) are done: preconditions, the
global axioms (expr(true) at line 278), quantifier and undef-variable sets,
the two domain predicates, the two return values with the return type's
refinement relation (external, line 317), both state views, the source
inputs, the target instructions (for the constructor's map), configuration
and the memory governor. -/
structure SynthCtx where
  pre_src : Expr
  pre_tgt : Expr
  axioms_expr : Expr
  qvars : List (String × Srt)
  uvars : List (String × Srt)
  dom_a : Expr
  dom_b : Expr
  sv : StateValue
  tv : StateValue
  tyRefines : StateValue → StateValue → Expr × Expr
  src_state : StateModel
  tgt_state : StateModel
  srcInputs : List Value
  tgtInstrs : List Value
  cfg : Config
  gov : MemGov

/-- mk_fml (lines 301-313): a trivially-false refinement term short-circuits
to itself; otherwise the obligation is the global axioms conjoined with the
preprocessed 'tgt-precondition ∧ (src-precondition ⇒ refines)'. -/
def mk_fml (C : SynthCtx) (refines : Expr) : Expr :=
  if isFalseE refines = true then refines
  else Expr.andE C.axioms_expr
    (preprocess C.srcInputs C.cfg C.gov C.qvars C.uvars
      (Expr.andE C.pre_tgt (Expr.impE C.pre_src refines)))

/-- The domain-loss obligation (line 337): mk_fml of
dom_a.notImplies(dom_b) = dom_a ∧ ¬dom_b. -/
def domFml (C : SynthCtx) : Expr :=
  mk_fml C (Expr.andE C.dom_a (Expr.notE C.dom_b))

/-- The main refinement obligation (lines 316-317 and 342): mk_fml of
(dom_a ∧ dom_b) ∧ value_cnstr ∧ poison_cnstr where (poison, value) come from
the return type's refinement relation on the two return values. -/
def mainFml (C : SynthCtx) : Expr :=
  mk_fml C (Expr.andE (Expr.andE (Expr.andE C.dom_a C.dom_b)
    (C.tyRefines C.sv C.tv).2) (C.tyRefines C.sv C.tv).1)

/-- Modelled from the spec: Solver::check (smt/smt.h, whose implementation is
not among the sources) — "a check(list of (formula, result-handler)) entry
point invoking each handler with a closed Result" (spec section 6); here the
two handlers of synthesize, each invoked with its own obligation's result. -/
def solverCheck (h1 : Result → List (String × Bool))
    (h2 : Result → List (String × Bool) × List (Value × Expr))
    (rDom rMain : Result) :
    List (String × Bool) × List (Value × Expr) :=
  ((h1 rDom) ++ (h2 rMain).1, (h2 rMain).2)

/-- ConstantSynth::ConstantSynth (lines 255-262) followed by
ConstantSynth::synthesize (lines 264-391): the constructor builds the
tgt_instrs name map only when check_each_var is set (and synthesize never
reads it); synthesize shadows check_each_var with a local false and var with
null (lines 329-330) and submits the two obligations' handlers to the
solver's check entry point. -/
def synthesize (cev : Bool) (C : SynthCtx) (E : Ext) (rDom rMain : Result) :
    List (String × Bool) × List (Value × Expr) :=
  let _tgt_instrs : List (String × Value) :=
    if cev then C.tgtInstrs.map (fun i => (i.name, i)) else []
  let var : Option Value := none
  let check_each_var : Bool := false
  solverCheck
    (fun r => error E [] C.src_state C.tgt_state r var
      "Source is more defined than target" check_each_var (fun _ => ""))
    (fun r => mainHandler E C.tgt_state.values r)
    rDom rMain

/-- Concrete state value used as witness data. -/
def svW : StateValue := ⟨Expr.boolLit true, Expr.boolLit true, true⟩

/-- Concrete source-state view used as witness data. -/
def srcStW : StateModel := ⟨[], true, fun _ => ""⟩

/-- Concrete target-state view used as witness data. -/
def tgtStW : StateModel := ⟨[], false, fun _ => ""⟩

/-- Concrete external probes used as witness data. -/
def ExtW : Ext := ⟨fun _ => false, fun _ => false⟩

/-- Concrete synthesize context used as witness data. -/
def ctxW : SynthCtx :=
  ⟨Expr.boolLit true, Expr.boolLit true, Expr.boolLit true, [], [],
   Expr.boolLit true, Expr.boolLit true, svW, svW,
   fun _ _ => (Expr.boolLit true, Expr.boolLit true),
   srcStW, tgtStW, [], [], cfgW, govW⟩

/-- Concrete identity model used as witness data. -/
def mW : Model := ⟨id, id⟩

/-- A target-side input without the reserved constant-hole name. -/
def vPlainW : Value := ⟨"%x", "%x", ValueKind.input, Ty.prim (fun _ => "")⟩

/-- A target-side input carrying the reserved constant-hole name. -/
def vHoleW : Value :=
  ⟨"%_reservedc_0", "%_reservedc_0", ValueKind.input, Ty.prim (fun _ => "")⟩

/-- An input value used by the renderer scenarios. -/
def varInW : Value := ⟨"%y", "%y", ValueKind.input, Ty.prim (fun _ => "")⟩

/-- A model forcing %y's classifier to undef while its poison flag evaluates
to false. -/
def mPoisonW : Model :=
  ⟨fun e => if e = getTyVar varInW then Expr.bvLit 1 2 else Expr.boolLit false,
   id⟩

/-- A model forcing %y's classifier to undef and evaluating everything else
to itself. -/
def mUndefW : Model :=
  ⟨fun e => if e = getTyVar varInW then Expr.bvLit 1 2 else e, id⟩

/-- Concrete quantifier set used as evaluation witness data. -/
def q0W : List (String × Srt) := [("b", Srt.bool), ("x", Srt.bv 2)]

/-- Concrete quantifier-free term used as evaluation witness data. -/
def eW : Expr :=
  Expr.orE (Expr.evar "b" Srt.bool)
    (Expr.eqE (Expr.evar "x" (Srt.bv 2)) (Expr.bvLit 1 2))

/-- Concrete environment used as evaluation witness data. -/
def envW : Env := fun _ _ => Val.vb false

theorem sortFix_idem (s : Srt) (v : Val) : sortFix s (sortFix s v) = sortFix s v := by
  cases s with
  | bool => simp [sortFix, toB]
  | bv w =>
      cases v with
      | vb b => simp [sortFix, toN]
      | vbv x w2 => simp [sortFix, toN, Nat.mod_mod_of_dvd x dvd_rfl]

theorem toN_lt (w : Nat) (v : Val) : toN w v < 2 ^ w := by
  cases v with
  | vb b => exact Nat.pos_pow_of_pos w (by omega)
  | vbv x w2 => exact Nat.mod_lt _ (Nat.pos_pow_of_pos w (by omega))

theorem sortFix_mem_domainList (s : Srt) (v : Val) : sortFix s v ∈ domainList s := by
  cases s with
  | bool => cases hb : toB v <;> simp [sortFix, domainList, hb]
  | bv w =>
      simp only [sortFix, domainList, List.mem_map]
      exact ⟨toN w v, List.mem_range.2 (toN_lt w v), rfl⟩

theorem evalCongr (e : Expr) (r1 r2 : Env)
    (h : ∀ m t, sortFix t (r1 m t) = sortFix t (r2 m t)) :
    eval e r1 = eval e r2 := by
  induction e generalizing r1 r2 with
  | boolLit b => rfl
  | bvLit v w => rfl
  | evar n s => simp only [eval]; exact h n s
  | andE a b iha ihb => simp [eval, iha r1 r2 h, ihb r1 r2 h]
  | orE a b iha ihb => simp [eval, iha r1 r2 h, ihb r1 r2 h]
  | notE a iha => simp [eval, iha r1 r2 h]
  | impE a b iha ihb => simp [eval, iha r1 r2 h, ihb r1 r2 h]
  | eqE a b iha ihb => simp [eval, iha r1 r2 h, ihb r1 r2 h]
  | iteE c a b ihc iha ihb => simp [eval, ihc r1 r2 h, iha r1 r2 h, ihb r1 r2 h]
  | allE n s b ihb =>
      simp only [eval, Val.vb.injEq]
      have hf : (fun v => toB (eval b (upd r1 n s v)))
          = (fun v => toB (eval b (upd r2 n s v))) := by
        funext v
        have : eval b (upd r1 n s v) = eval b (upd r2 n s v) := by
          apply ihb
          intro m t
          by_cases hc : m = n ∧ t = s
          · simp [upd, hc]
          · simp [upd, hc, h m t]
        rw [this]
      rw [hf]

theorem eval_subst (e : Expr) (n : String) (s : Srt) (t : Expr) (r : Env)
    (hqf : qf e = true) (ht : sortFix s (eval t r) = eval t r) :
    eval (e.subst n s t) r = eval e (upd r n s (eval t r)) := by
  induction e with
  | boolLit b => rfl
  | bvLit v w => rfl
  | evar m u =>
      by_cases hc : m = n ∧ u = s
      · obtain ⟨rfl, rfl⟩ := hc
        simp [Expr.subst, eval, upd, ht]
      · simp [Expr.subst, hc, eval, upd]
  | andE a b iha ihb =>
      simp only [qf, Bool.and_eq_true] at hqf
      simp [Expr.subst, eval, iha hqf.1, ihb hqf.2]
  | orE a b iha ihb =>
      simp only [qf, Bool.and_eq_true] at hqf
      simp [Expr.subst, eval, iha hqf.1, ihb hqf.2]
  | notE a iha =>
      simp only [qf] at hqf
      simp [Expr.subst, eval, iha hqf]
  | impE a b iha ihb =>
      simp only [qf, Bool.and_eq_true] at hqf
      simp [Expr.subst, eval, iha hqf.1, ihb hqf.2]
  | eqE a b iha ihb =>
      simp only [qf, Bool.and_eq_true] at hqf
      simp [Expr.subst, eval, iha hqf.1, ihb hqf.2]
  | iteE c a b ihc iha ihb =>
      simp only [qf, Bool.and_eq_true] at hqf
      simp [Expr.subst, eval, ihc hqf.1.1, iha hqf.1.2, ihb hqf.2]
  | allE m u b ihb => simp [qf] at hqf

theorem eval_simplify (e : Expr) (r : Env) : eval (simplify e) r = eval e r := by
  induction e generalizing r with
  | boolLit b => rfl
  | bvLit v w => rfl
  | evar n s => rfl
  | andE a b iha ihb =>
      simp only [simplify]
      split
      · next x y ha hb =>
          have h1 : eval a r = Val.vb x := by rw [← iha, ha]; rfl
          have h2 : eval b r = Val.vb y := by rw [← ihb, hb]; rfl
          simp [eval, h1, h2, toB]
      · next => simp [eval, iha, ihb]
  | orE a b iha ihb =>
      simp only [simplify]
      split
      · next x y ha hb =>
          have h1 : eval a r = Val.vb x := by rw [← iha, ha]; rfl
          have h2 : eval b r = Val.vb y := by rw [← ihb, hb]; rfl
          simp [eval, h1, h2, toB]
      · next => simp [eval, iha, ihb]
  | notE a iha =>
      simp only [simplify]
      split
      · next x ha =>
          have h1 : eval a r = Val.vb x := by rw [← iha, ha]; rfl
          simp [eval, h1, toB]
      · next => simp [eval, iha]
  | impE a b iha ihb =>
      simp only [simplify]
      split
      · next x y ha hb =>
          have h1 : eval a r = Val.vb x := by rw [← iha, ha]; rfl
          have h2 : eval b r = Val.vb y := by rw [← ihb, hb]; rfl
          simp [eval, h1, h2, toB]
      · next => simp [eval, iha, ihb]
  | eqE a b iha ihb =>
      simp only [simplify]
      split
      · next x y ha hb =>
          have h1 : eval a r = Val.vb x := by rw [← iha, ha]; rfl
          have h2 : eval b r = Val.vb y := by rw [← ihb, hb]; rfl
          simp [eval, h1, h2]
      · next x w y w2 ha hb =>
          have h1 : eval a r = Val.vbv (x % 2 ^ w) w := by rw [← iha, ha]; rfl
          have h2 : eval b r = Val.vbv (y % 2 ^ w2) w2 := by rw [← ihb, hb]; rfl
          simp [eval, h1, h2, Val.vbv.injEq]
      · next => simp [eval, iha, ihb]
  | iteE c a b ihc iha ihb =>
      simp only [simplify]
      split
      · next x hc =>
          have h1 : eval c r = Val.vb x := by rw [← ihc, hc]; rfl
          cases x <;> simp [eval, h1, toB, iha, ihb]
      · next => simp [eval, ihc, iha, ihb]
  | allE n s b ihb =>
      simp only [simplify, eval, Val.vb.injEq]
      have hf : (fun v => toB (eval (simplify b) (upd r n s v)))
          = (fun v => toB (eval b (upd r n s v))) := by
        funext v; rw [ihb]
      rw [hf]

theorem qf_simplify (e : Expr) (hqf : qf e = true) : qf (simplify e) = true := by
  induction e with
  | boolLit b => rfl
  | bvLit v w => rfl
  | evar n s => rfl
  | andE a b iha ihb =>
      simp only [qf, Bool.and_eq_true] at hqf
      simp only [simplify]
      split
      · rfl
      · next => simp [qf, iha hqf.1, ihb hqf.2]
  | orE a b iha ihb =>
      simp only [qf, Bool.and_eq_true] at hqf
      simp only [simplify]
      split
      · rfl
      · next => simp [qf, iha hqf.1, ihb hqf.2]
  | notE a iha =>
      simp only [qf] at hqf
      simp only [simplify]
      split
      · rfl
      · next => simp [qf, iha hqf]
  | impE a b iha ihb =>
      simp only [qf, Bool.and_eq_true] at hqf
      simp only [simplify]
      split
      · rfl
      · next => simp [qf, iha hqf.1, ihb hqf.2]
  | eqE a b iha ihb =>
      simp only [qf, Bool.and_eq_true] at hqf
      simp only [simplify]
      split
      · rfl
      · rfl
      · next => simp [qf, iha hqf.1, ihb hqf.2]
  | iteE c a b ihc iha ihb =>
      simp only [qf, Bool.and_eq_true] at hqf
      simp only [simplify]
      split
      · next x hx => cases x <;> simp [iha hqf.1.2, ihb hqf.2]
      · next => simp [qf, ihc hqf.1.1, iha hqf.1.2, ihb hqf.2]
  | allE n s b ihb => simp [qf] at hqf

theorem qf_subst (e : Expr) (n : String) (s : Srt) (t : Expr)
    (hqf : qf e = true) (hqt : qf t = true) : qf (e.subst n s t) = true := by
  induction e with
  | boolLit b => rfl
  | bvLit v w => rfl
  | evar m u =>
      by_cases hc : m = n ∧ u = s
      · simp [Expr.subst, hc, hqt]
      · simp [Expr.subst, hc, qf]
  | andE a b iha ihb =>
      simp only [qf, Bool.and_eq_true] at hqf
      simp [Expr.subst, qf, iha hqf.1, ihb hqf.2]
  | orE a b iha ihb =>
      simp only [qf, Bool.and_eq_true] at hqf
      simp [Expr.subst, qf, iha hqf.1, ihb hqf.2]
  | notE a iha =>
      simp only [qf] at hqf
      simp [Expr.subst, qf, iha hqf]
  | impE a b iha ihb =>
      simp only [qf, Bool.and_eq_true] at hqf
      simp [Expr.subst, qf, iha hqf.1, ihb hqf.2]
  | eqE a b iha ihb =>
      simp only [qf, Bool.and_eq_true] at hqf
      simp [Expr.subst, qf, iha hqf.1, ihb hqf.2]
  | iteE c a b ihc iha ihb =>
      simp only [qf, Bool.and_eq_true] at hqf
      simp [Expr.subst, qf, ihc hqf.1.1, iha hqf.1.2, ihb hqf.2]
  | allE m u b ihb => simp [qf] at hqf

theorem evalB_andE (a b : Expr) (r : Env) :
    evalB (Expr.andE a b) r = (evalB a r && evalB b r) := rfl

theorem eval_mkForAll_iff (vs : List (String × Srt)) (e : Expr) (r : Env) :
    evalB (mkForAll vs e) r = true ↔ holdsB vs e r := by
  induction vs generalizing r with
  | nil =>
      constructor
      · intro h r2 hag
        have hre : r2 = r := funext fun m => funext fun t => hag m t (List.not_mem_nil _)
        rwa [hre]
      · intro h
        exact h r fun m t _ => rfl
  | cons p rest ih =>
      obtain ⟨n, s⟩ := p
      have hcons : evalB (mkForAll ((n, s) :: rest) e) r = true ↔
          ∀ v ∈ domainList s, evalB (mkForAll rest e) (upd r n s v) = true := by
        show ((domainList s).all
            fun v => evalB (mkForAll rest e) (upd r n s v)) = true ↔ _
        simp [List.all_eq_true]
      rw [hcons]
      constructor
      · intro h r2 hag
        have hvmem : sortFix s (r2 n s) ∈ domainList s := sortFix_mem_domainList s _
        have h1 : holdsB rest e (upd r n s (sortFix s (r2 n s))) :=
          (ih (upd r n s (sortFix s (r2 n s)))).1 (h _ hvmem)
        have h2 : agreesOff rest (upd r n s (sortFix s (r2 n s)))
            (upd r2 n s (sortFix s (r2 n s))) := by
          intro m t hmt
          by_cases hc : m = n ∧ t = s
          · simp [upd, hc]
          · simp only [upd, if_neg hc]
            refine hag m t ?_
            simp only [List.mem_cons, not_or]
            refine ⟨?_, hmt⟩
            intro he
            exact hc ⟨congrArg Prod.fst he, congrArg Prod.snd he⟩
        have h3 : evalB e (upd r2 n s (sortFix s (r2 n s))) = true := h1 _ h2
        have h4 : eval e (upd r2 n s (sortFix s (r2 n s))) = eval e r2 := by
          apply evalCongr
          intro m t
          by_cases hc : m = n ∧ t = s
          · obtain ⟨rfl, rfl⟩ := hc
            simp [upd, sortFix_idem]
          · simp [upd, hc]
        unfold evalB at h3 ⊢
        rw [← h4]
        exact h3
      · intro h v hvmem
        apply (ih (upd r n s v)).2
        intro r2 hag
        apply h r2
        intro m t hmt
        have h5 : (m, t) ∉ rest ∧ (m, t) ≠ (n, s) := by
          simp only [List.mem_cons, not_or] at hmt
          exact ⟨hmt.2, hmt.1⟩
        rw [hag m t h5.1]
        have hc : ¬(m = n ∧ t = s) := by
          intro hq
          exact h5.2 (by obtain ⟨rfl, rfl⟩ := hq; rfl)
        simp [upd, hc]

theorem evalB_subst_bool (e : Expr) (n : String) (b : Bool) (r : Env)
    (hqf : qf e = true) :
    evalB (simplify (e.subst n Srt.bool (Expr.boolLit b))) r
      = evalB e (upd r n Srt.bool (Val.vb b)) := by
  unfold evalB
  rw [eval_simplify, eval_subst e n Srt.bool (Expr.boolLit b) r hqf rfl]
  rfl

theorem holdsB_elim_step (vs : List (String × Srt)) (n : String) (e : Expr)
    (r : Env) (hmem : (n, Srt.bool) ∈ vs) (hqf : qf e = true) :
    holdsB vs e r ↔
      holdsB (vs.erase (n, Srt.bool))
        (Expr.andE (simplify (e.subst n Srt.bool (Expr.boolLit true)))
                   (simplify (e.subst n Srt.bool (Expr.boolLit false)))) r := by
  constructor
  · intro h r2 hag
    have key : ∀ b : Bool, evalB e (upd r2 n Srt.bool (Val.vb b)) = true := by
      intro b
      apply h
      intro m t hmt
      have hne : ¬(m = n ∧ t = Srt.bool) := by
        intro hq
        obtain ⟨rfl, rfl⟩ := hq
        exact hmt hmem
      show upd r2 n Srt.bool (Val.vb b) m t = r m t
      rw [upd, if_neg hne]
      refine hag m t ?_
      intro hin
      exact hmt (List.erase_subset _ _ hin)
    rw [evalB_andE, Bool.and_eq_true]
    constructor
    · rw [evalB_subst_bool e n true r2 hqf]
      exact key true
    · rw [evalB_subst_bool e n false r2 hqf]
      exact key false
  · intro h r2 hag
    have hag3 : agreesOff (vs.erase (n, Srt.bool)) r
        (upd r2 n Srt.bool (r n Srt.bool)) := by
      intro m t hmt
      by_cases hc : m = n ∧ t = Srt.bool
      · obtain ⟨rfl, rfl⟩ := hc
        simp [upd]
      · have hne : (m, t) ≠ (n, Srt.bool) := by
          intro he
          exact hc ⟨congrArg Prod.fst he, congrArg Prod.snd he⟩
        have hnin : (m, t) ∉ vs := by
          intro hin
          exact hmt ((List.mem_erase_of_ne hne).2 hin)
        rw [upd, if_neg hc]
        exact hag m t hnin
    have h6 := h _ hag3
    rw [evalB_andE, Bool.and_eq_true,
        evalB_subst_bool e n true _ hqf, evalB_subst_bool e n false _ hqf] at h6
    have h7 : evalB e (upd (upd r2 n Srt.bool (r n Srt.bool)) n Srt.bool
        (Val.vb (toB (r2 n Srt.bool)))) = true := by
      cases hbv : toB (r2 n Srt.bool)
      · exact h6.2
      · exact h6.1
    have h8 : eval e (upd (upd r2 n Srt.bool (r n Srt.bool)) n Srt.bool
        (Val.vb (toB (r2 n Srt.bool)))) = eval e r2 := by
      apply evalCongr
      intro m t
      by_cases hc : m = n ∧ t = Srt.bool
      · obtain ⟨rfl, rfl⟩ := hc
        simp [upd, sortFix, toB]
      · simp [upd, hc]
    unfold evalB
    rw [← h8]
    exact h7

theorem isBoolE_evar_bv (n : String) (w : Nat) :
    isBoolE (Expr.evar n (Srt.bv w)) = false := rfl

theorem holdsB_elimBools_fold (l : List (String × Srt))
    (vs : List (String × Srt)) (e : Expr) (r : Env)
    (hnd : l.Nodup) (hsub : ∀ y ∈ l, y ∈ vs) (hqf : qf e = true) :
    holdsB vs e r ↔
      holdsB (l.foldl elimStep (vs, e)).1 (l.foldl elimStep (vs, e)).2 r := by
  induction l generalizing vs e with
  | nil => simp [List.foldl]
  | cons y l2 ih =>
      obtain ⟨yn, ys⟩ := y
      rw [List.foldl_cons]
      rcases List.nodup_cons.1 hnd with ⟨hyl, hnd2⟩
      by_cases hys : ys = Srt.bool
      · subst hys
        have hstep : elimStep (vs, e) (yn, Srt.bool) =
            (vs.erase (yn, Srt.bool),
             Expr.andE (simplify (e.subst yn Srt.bool (Expr.boolLit true)))
                       (simplify (e.subst yn Srt.bool (Expr.boolLit false)))) := by
          simp [elimStep, isBoolE]
        rw [hstep]
        have hm : (yn, Srt.bool) ∈ vs := hsub _ (List.mem_cons_self _ _)
        have hqf2 : qf (Expr.andE
            (simplify (e.subst yn Srt.bool (Expr.boolLit true)))
            (simplify (e.subst yn Srt.bool (Expr.boolLit false)))) = true := by
          simp [qf,
            qf_simplify _ (qf_subst e yn Srt.bool (Expr.boolLit true) hqf rfl),
            qf_simplify _ (qf_subst e yn Srt.bool (Expr.boolLit false) hqf rfl)]
        refine (holdsB_elim_step vs yn e r hm hqf).trans ?_
        apply ih _ _ hnd2 ?_ hqf2
        intro z hz
        have hzvs : z ∈ vs := hsub z (List.mem_cons_of_mem _ hz)
        have hzy : z ≠ (yn, Srt.bool) := fun he => hyl (he ▸ hz)
        exact (List.mem_erase_of_ne hzy).2 hzvs
      · have hb : isBoolE (Expr.evar yn ys) = false := by
          cases ys with
          | bool => exact absurd rfl hys
          | bv w => rfl
        have hstep : elimStep (vs, e) (yn, ys) = (vs, e) := by
          simp [elimStep, hb]
        rw [hstep]
        exact ih vs e hnd2 (fun z hz => hsub z (List.mem_cons_of_mem _ hz)) hqf

/-- C5: eliminating the boolean-typed quantified variables of `qvars0` by
case-splitting — as the loop at src/lib/constantsynth.cpp lines 36-43 does —
yields a term whose universal closure over the reduced quantifier set is
logically equivalent (same truth value in every environment) to the universal
closure of the original term over the original quantifier set, independent of
how many boolean variables are eliminated. -/
theorem preprocess_bool_elim_equiv (q0 : List (String × Srt)) (e : Expr)
    (r : Env) (hnd : q0.Nodup) (hqf : qf e = true) :
    evalB (mkForAll q0 e) r
      = evalB (mkForAll (elimBools q0 e).1 (elimBools q0 e).2) r := by
  have h1 := eval_mkForAll_iff q0 e r
  have h2 := eval_mkForAll_iff (elimBools q0 e).1 (elimBools q0 e).2 r
  have h3 : holdsB q0 e r ↔
      holdsB (elimBools q0 e).1 (elimBools q0 e).2 r :=
    holdsB_elimBools_fold q0 q0 e r hnd (fun y hy => hy) hqf
  have h4 : (evalB (mkForAll q0 e) r = true) ↔
      (evalB (mkForAll (elimBools q0 e).1 (elimBools q0 e).2) r = true) :=
    h1.trans (h3.trans h2.symm)
  cases hA : evalB (mkForAll q0 e) r <;>
    cases hB : evalB (mkForAll (elimBools q0 e).1 (elimBools q0 e).2) r <;>
      simp_all

/-- Witness for C5: the equivalence applied to a concrete quantifier set
(one boolean, one 2-bit variable), a concrete term and a concrete
environment, all hypotheses discharged by evaluation. -/
theorem preprocess_bool_elim_equiv_witness :
    q0W.Nodup ∧ qf eW = true ∧
      evalB (mkForAll q0W eW) envW
        = evalB (mkForAll (elimBools q0W eW).1 (elimBools q0W eW).2) envW :=
  ⟨by decide, by decide,
    preprocess_bool_elim_equiv q0W eW envW (by decide) (by decide)⟩

theorem mapSet_length (m : List (Expr × Expr)) (k v : Expr) :
    (mapSet m k v).length ≤ m.length + 1 := by
  unfold mapSet
  split
  · rw [List.length_map]
    omega
  · simp

theorem tryEmplace_length (m : List (Expr × Expr)) (k v : Expr) :
    (tryEmplace m k v).length ≤ m.length + 1 := by
  unfold tryEmplace
  split
  · omega
  · simp

theorem tryVal_length (cfg : Config) (var : String) (ev : Expr × Expr) :
    ∀ (l : List Nat) (acc : List (Expr × Expr)),
      (tryVal cfg var ev acc l).length ≤ acc.length + l.length := by
  intro l
  induction l with
  | nil => intro acc; simp [tryVal]
  | cons i rest ih =>
      intro acc
      simp only [tryVal]
      split
      · have := ih acc
        simp only [List.length_cons]
        omega
      · split
        · have := mapSet_length acc (ev.1.subst var (Srt.bv 2) (numsE i)) ev.2
          simp only [List.length_cons]
          omega
        · split
          · have := ih acc
            simp only [List.length_cons]
            omega
          · have h1 := ih (tryEmplace acc
              (simplify (ev.1.subst var (Srt.bv 2) (numsE i)))
              (Expr.andE ev.2 (Expr.eqE (Expr.evar var (Srt.bv 2)) (numsE i))))
            have h2 := tryEmplace_length acc
              (simplify (ev.1.subst var (Srt.bv 2) (numsE i)))
              (Expr.andE ev.2 (Expr.eqE (Expr.evar var (Srt.bv 2)) (numsE i)))
            simp only [List.length_cons]
            omega

theorem stepMap_length_aux (cfg : Config) (var : String) :
    ∀ (l : List (Expr × Expr)) (acc : List (Expr × Expr)),
      (l.foldl (fun a ev => tryVal cfg var ev a [0, 1, 2]) acc).length
        ≤ acc.length + 3 * l.length := by
  intro l
  induction l with
  | nil => intro acc; simp
  | cons ev rest ih =>
      intro acc
      rw [List.foldl_cons]
      have h1 := ih (tryVal cfg var ev acc [0, 1, 2])
      have h2 := tryVal_length cfg var ev [0, 1, 2] acc
      simp only [List.length_cons, List.length_nil] at h1 h2 ⊢
      omega

theorem stepMap_length (cfg : Config) (var : String)
    (insts : List (Expr × Expr)) :
    (stepMap cfg var insts).length ≤ 3 * insts.length := by
  have := stepMap_length_aux cfg var insts []
  simpa [stepMap] using this

theorem instLoop_le (cfg : Config) (gov : MemGov) :
    ∀ (L : List Value) (k : Nat) (insts : List (Expr × Expr)),
      insts.length < 128 → (instLoop cfg gov k insts L).length ≤ 381 := by
  intro L
  induction L with
  | nil =>
      intro k insts h
      simp only [instLoop]
      omega
  | cons i rest ih =>
      intro k insts h
      simp only [instLoop]
      split
      · split
        · have := stepMap_length cfg ("ty_" ++ i.name) insts
          omega
        · next hcond =>
            apply ih
            simp only [not_or] at hcond
            omega
      · exact ih k insts h

/-- C4 (amended): at the start of each input-processing iteration the
instances map holds fewer than 128 entries, and one iteration at most triples
the map, so throughout the bounded instantiation loop of preprocess the map
never exceeds 3 * 127 = 381 live entries; when the post-input size reaches
the 128 bound the loop stops early, returning that map, and the enclosing
preprocess still returns a term (the guarded disjunction) by construction. -/
theorem preprocess_inst_bound (cfg : Config) (gov : MemGov)
    (srcInputs : List Value) (k : Nat) (insts : List (Expr × Expr))
    (i : Value) (rest : List Value) (h : insts.length < 128) :
    (instLoop cfg gov k insts srcInputs).length ≤ 381
    ∧ (i.kind = ValueKind.input →
        128 ≤ (stepMap cfg ("ty_" ++ i.name) insts).length →
        instLoop cfg gov k insts (i :: rest)
          = stepMap cfg ("ty_" ++ i.name) insts) := by
  constructor
  · exact instLoop_le cfg gov srcInputs k insts h
  · intro hkind hle
    simp only [instLoop]
    rw [if_pos hkind, if_pos (Or.inl hle)]

/-- Witness for C4 (amended) on the concrete scenario loop state. -/
theorem preprocess_inst_bound_witness :
    ([((elimBools [] (keyW [])).2, Expr.boolLit true)] :
        List (Expr × Expr)).length < 128
    ∧ (instLoop cfgW govW 0
        [((elimBools [] (keyW [])).2, Expr.boolLit true)] []).length ≤ 381 :=
  ⟨by decide,
    (preprocess_inst_bound cfgW govW [] 0
      [((elimBools [] (keyW [])).2, Expr.boolLit true)]
      ⟨"a", "", ValueKind.input, Ty.prim fun _ => ""⟩ []
      (by decide)).1⟩

theorem decK_keyW (ks : List Nat) (h : ks.length ≤ 5) : decK (keyW ks) = ks := by
  rcases ks with _ | ⟨a, _ | ⟨b, _ | ⟨c, _ | ⟨d, _ | ⟨e, t⟩⟩⟩⟩⟩
  · rfl
  · rfl
  · rfl
  · rfl
  · rfl
  · cases t with
    | nil => rfl
    | cons f t2 => simp at h

theorem keyW_inj (u v : List Nat) (hu : u.length ≤ 5) (hv : v.length ≤ 5)
    (h : keyW u = keyW v) : u = v := by
  rw [← decK_keyW u hu, ← decK_keyW v hv, h]

theorem any_key_false (m : List (Expr × Expr)) (k : Expr)
    (h : k ∉ m.map Prod.fst) : (m.any fun p => p.1 = k) = false := by
  rw [List.any_eq_false]
  intro p hp
  simp only [decide_eq_true_eq]
  intro he
  exact h (List.mem_map.2 ⟨p, hp, he⟩)

theorem tryEmplace_not_mem (m : List (Expr × Expr)) (k v : Expr)
    (h : k ∉ m.map Prod.fst) : tryEmplace m k v = m ++ [(k, v)] := by
  unfold tryEmplace
  rw [any_key_false m k h]
  rfl

theorem tryVal_cons_insert (var : String) (ev : Expr × Expr)
    (acc : List (Expr × Expr)) (i : Nat) (rest : List Nat) (k : Expr)
    (hne : ev.1.subst var (Srt.bv 2) (numsE i) ≠ ev.1)
    (hs : simplify (ev.1.subst var (Srt.bv 2) (numsE i)) = k)
    (hf : isFalseE k = false)
    (ha : k ∉ acc.map Prod.fst) :
    tryVal cfgW var ev acc (i :: rest)
      = tryVal cfgW var ev
          (acc ++ [(k, Expr.andE ev.2
            (Expr.eqE (Expr.evar var (Srt.bv 2)) (numsE i)))]) rest := by
  have hskip : ((cfgW.disable_undef_input && (i == 1))
      || (cfgW.disable_poison_input && (i == 2))) = false := rfl
  simp only [tryVal, hskip, Bool.false_eq_true, if_false]
  rw [if_neg hne, hs, hf]
  simp only [Bool.false_eq_true, if_false]
  rw [tryEmplace_not_mem acc k _ ha]

theorem tryVal_step (var : String) (ev : Expr × Expr)
    (acc : List (Expr × Expr)) (k0 k1 k2 : Expr)
    (hne0 : ev.1.subst var (Srt.bv 2) (numsE 0) ≠ ev.1)
    (hne1 : ev.1.subst var (Srt.bv 2) (numsE 1) ≠ ev.1)
    (hne2 : ev.1.subst var (Srt.bv 2) (numsE 2) ≠ ev.1)
    (hs0 : simplify (ev.1.subst var (Srt.bv 2) (numsE 0)) = k0)
    (hs1 : simplify (ev.1.subst var (Srt.bv 2) (numsE 1)) = k1)
    (hs2 : simplify (ev.1.subst var (Srt.bv 2) (numsE 2)) = k2)
    (hf0 : isFalseE k0 = false) (hf1 : isFalseE k1 = false)
    (hf2 : isFalseE k2 = false)
    (ha0 : k0 ∉ acc.map Prod.fst) (ha1 : k1 ∉ acc.map Prod.fst)
    (ha2 : k2 ∉ acc.map Prod.fst)
    (h10 : k1 ≠ k0) (h20 : k2 ≠ k0) (h21 : k2 ≠ k1) :
    tryVal cfgW var ev acc [0, 1, 2]
      = acc ++
        [(k0, Expr.andE ev.2 (Expr.eqE (Expr.evar var (Srt.bv 2)) (numsE 0))),
         (k1, Expr.andE ev.2 (Expr.eqE (Expr.evar var (Srt.bv 2)) (numsE 1))),
         (k2, Expr.andE ev.2 (Expr.eqE (Expr.evar var (Srt.bv 2)) (numsE 2)))] := by
  rw [tryVal_cons_insert var ev acc 0 [1, 2] k0 hne0 hs0 hf0 ha0]
  rw [tryVal_cons_insert var ev _ 1 [2] k1 hne1 hs1 hf1 ?h1]
  case h1 =>
    simp only [List.map_append, List.mem_append, List.map_cons, List.map_nil,
      List.mem_cons, List.not_mem_nil, or_false, not_or]
    exact ⟨ha1, h10⟩
  rw [tryVal_cons_insert var ev _ 2 [] k2 hne2 hs2 hf2 ?h2]
  case h2 =>
    simp only [List.map_append, List.mem_append, List.map_cons, List.map_nil,
      List.mem_cons, List.not_mem_nil, or_false, not_or]
    exact ⟨⟨ha2, h20⟩, h21⟩
  show ((acc ++ _) ++ _) ++ _ = _
  simp [List.append_assoc]

theorem foldl_tryVal_expand (var : String) :
    ∀ (ts done : List (List Nat)) (insts acc : List (Expr × Expr)),
      insts.map Prod.fst = ts.map keyW →
      acc.map Prod.fst = (done.flatMap chT).map keyW →
      (∀ t ∈ ts, ∀ i < 3,
          ((keyW t).subst var (Srt.bv 2) (numsE i) ≠ keyW t) ∧
          simplify ((keyW t).subst var (Srt.bv 2) (numsE i)) = keyW (t ++ [i]) ∧
          isFalseE (keyW (t ++ [i])) = false) →
      (∀ u ∈ (done ++ ts).flatMap chT, ∀ v ∈ (done ++ ts).flatMap chT,
          keyW u = keyW v → u = v) →
      ((done ++ ts).flatMap chT).Nodup →
      (insts.foldl (fun a ev => tryVal cfgW var ev a [0, 1, 2]) acc).map Prod.fst
        = ((done ++ ts).flatMap chT).map keyW := by
  intro ts
  induction ts with
  | nil =>
      intro done insts acc hinsts hacc hstep hinj hnd
      have hempty : insts = [] := by
        cases insts with
        | nil => rfl
        | cons p ps => simp at hinsts
      subst hempty
      simpa using hacc
  | cons t ts2 ih =>
      intro done insts acc hinsts hacc hstep hinj hnd
      obtain ⟨ev, insts2, rfl⟩ : ∃ ev insts2, insts = ev :: insts2 := by
        cases insts with
        | nil => simp at hinsts
        | cons p ps => exact ⟨p, ps, rfl⟩
      simp only [List.map_cons, List.cons.injEq] at hinsts
      obtain ⟨hev, hinsts2⟩ := hinsts
      obtain ⟨hne0, hs0, hf0⟩ := hstep t (List.mem_cons_self t ts2) 0 (by omega)
      obtain ⟨hne1, hs1, hf1⟩ := hstep t (List.mem_cons_self t ts2) 1 (by omega)
      obtain ⟨hne2, hs2, hf2⟩ := hstep t (List.mem_cons_self t ts2) 2 (by omega)
      have htm : ∀ i, i < 3 → (t ++ [i]) ∈ (t :: ts2).flatMap chT := by
        intro i hi
        refine List.mem_flatMap.2 ⟨t, List.mem_cons_self t ts2, ?_⟩
        interval_cases i <;> simp [chT]
      have hmem2 : ∀ i, i < 3 →
          (t ++ [i]) ∈ (done ++ t :: ts2).flatMap chT := by
        intro i hi
        rw [List.flatMap_append]
        exact List.mem_append.2 (Or.inr (htm i hi))
      have hdisj :
          List.Disjoint (done.flatMap chT) ((t :: ts2).flatMap chT) := by
        apply List.disjoint_of_nodup_append
        rwa [List.flatMap_append] at hnd
      have habs : ∀ i, i < 3 → keyW (t ++ [i]) ∉ acc.map Prod.fst := by
        intro i hi hmem
        rw [hacc] at hmem
        obtain ⟨u, hu, hue⟩ := List.mem_map.1 hmem
        have hu2 : u ∈ (done ++ t :: ts2).flatMap chT := by
          rw [List.flatMap_append]
          exact List.mem_append.2 (Or.inl hu)
        have heq := hinj u hu2 _ (hmem2 i hi) hue
        rw [heq] at hu
        exact hdisj hu (htm i hi)
      have hpair : ∀ i j, i < 3 → j < 3 → i ≠ j →
          keyW (t ++ [i]) ≠ keyW (t ++ [j]) := by
        intro i j hi hj hij h
        have h2 := hinj _ (hmem2 i hi) _ (hmem2 j hj) h
        have h3 := List.append_cancel_left h2
        simp only [List.cons.injEq, and_true] at h3
        exact hij h3
      rw [List.foldl_cons]
      rw [tryVal_step var ev acc (keyW (t ++ [0])) (keyW (t ++ [1]))
        (keyW (t ++ [2]))
        (by rw [hev]; exact hne0) (by rw [hev]; exact hne1)
        (by rw [hev]; exact hne2)
        (by rw [hev]; exact hs0) (by rw [hev]; exact hs1)
        (by rw [hev]; exact hs2)
        hf0 hf1 hf2
        (habs 0 (by omega)) (habs 1 (by omega)) (habs 2 (by omega))
        (hpair 1 0 (by omega) (by omega) (by omega))
        (hpair 2 0 (by omega) (by omega) (by omega))
        (hpair 2 1 (by omega) (by omega) (by omega))]
      have hre : done ++ t :: ts2 = (done ++ [t]) ++ ts2 := by simp
      rw [hre]
      apply ih (done ++ [t]) insts2 _ hinsts2 ?hacc2 ?hstep2 ?hinj2 ?hnd2
      case hacc2 =>
        simp only [List.map_append, hacc, List.flatMap_append]
        simp [chT]
      case hstep2 =>
        intro u hu
        exact hstep u (List.mem_cons_of_mem _ hu)
      case hinj2 =>
        rw [← hre]
        exact hinj
      case hnd2 =>
        rw [← hre]
        exact hnd

/-- One round of the instantiation loop on a uniformly-expanding map: if the
current keys enumerate keyW over the tuples `ts` and each substitution acts,
simplifies to the child key and never collapses to false, then the rebuilt
map's keys enumerate keyW over all children of `ts`. -/
theorem stepMap_expand (var : String) (ts : List (List Nat))
    (insts : List (Expr × Expr))
    (hinsts : insts.map Prod.fst = ts.map keyW)
    (hstep : ∀ t ∈ ts, ∀ i < 3,
        ((keyW t).subst var (Srt.bv 2) (numsE i) ≠ keyW t) ∧
        simplify ((keyW t).subst var (Srt.bv 2) (numsE i)) = keyW (t ++ [i]) ∧
        isFalseE (keyW (t ++ [i])) = false)
    (hinj : ∀ u ∈ ts.flatMap chT, ∀ v ∈ ts.flatMap chT,
        keyW u = keyW v → u = v)
    (hnd : (ts.flatMap chT).Nodup) :
    (stepMap cfgW var insts).map Prod.fst = (ts.flatMap chT).map keyW := by
  have h := foldl_tryVal_expand var ts [] insts [] hinsts (by simp) hstep
    (by simpa using hinj) (by simpa using hnd)
  simpa [stepMap] using h

theorem keyW_inj_of_len (T : List (List Nat)) (h5 : ∀ x ∈ T, x.length ≤ 5) :
    ∀ u ∈ T, ∀ v ∈ T, keyW u = keyW v → u = v :=
  fun u hu v hv he => keyW_inj u v (h5 u hu) (h5 v hv) he

theorem instLoop_cons_cont (cfg : Config) (gov : MemGov) (k : Nat)
    (insts : List (Expr × Expr)) (i : Value) (rest : List Value) (var : String)
    (hvar : "ty_" ++ i.name = var) (hkind : i.kind = ValueKind.input)
    (hlen : (stepMap cfg var insts).length < 128) (hgov : gov k = false) :
    instLoop cfg gov k insts (i :: rest)
      = instLoop cfg gov (k + 1) (stepMap cfg var insts) rest := by
  subst hvar
  simp only [instLoop]
  rw [if_pos hkind, if_neg]
  simp only [not_or, hgov]
  exact ⟨by omega, by simp⟩

theorem instLoop_cons_stop (cfg : Config) (gov : MemGov) (k : Nat)
    (insts : List (Expr × Expr)) (i : Value) (rest : List Value) (var : String)
    (hvar : "ty_" ++ i.name = var) (hkind : i.kind = ValueKind.input)
    (hlen : 128 ≤ (stepMap cfg var insts).length) :
    instLoop cfg gov k insts (i :: rest) = stepMap cfg var insts := by
  subst hvar
  simp only [instLoop]
  rw [if_pos hkind, if_pos (Or.inl hlen)]

theorem stepMap_len_of_expand (var : String) (ts : List (List Nat))
    (insts : List (Expr × Expr))
    (h : (stepMap cfgW var insts).map Prod.fst = (ts.flatMap chT).map keyW) :
    (stepMap cfgW var insts).length = (ts.flatMap chT).length := by
  have h2 := congrArg List.length h
  rwa [List.length_map, List.length_map] at h2

set_option maxHeartbeats 3200000 in
/-- C4 counterexample: a run of the instantiation loop of preprocess — five
inputs, no classifier value disabled, memory budget never hit, the map seeded
with (term, true) exactly as preprocess seeds it — ends with 3^5 = 243 live
entries in the instances map, exceeding the claimed 128 bound. -/
theorem instLoop_exceeds_claimed_bound :
    128 < (instLoop cfgW govW 0
      [((elimBools [] (keyW [])).2, Expr.boolLit true)] inputs5W).length := by
  have r0 : (stepMap cfgW (tyNm 0)
      [((elimBools [] (keyW [])).2, Expr.boolLit true)]).map Prod.fst
      = ((tupT 0).flatMap chT).map keyW :=
    stepMap_expand (tyNm 0) (tupT 0) _ (by rfl) (by decide)
      (keyW_inj_of_len _ (by decide)) (by decide)
  have r1 : (stepMap cfgW (tyNm 1) (stepMap cfgW (tyNm 0)
      [((elimBools [] (keyW [])).2, Expr.boolLit true)])).map Prod.fst
      = ((tupT 1).flatMap chT).map keyW :=
    stepMap_expand (tyNm 1) (tupT 1) _ r0 (by decide)
      (keyW_inj_of_len _ (by decide)) (by decide)
  have r2 : (stepMap cfgW (tyNm 2) (stepMap cfgW (tyNm 1) (stepMap cfgW (tyNm 0)
      [((elimBools [] (keyW [])).2, Expr.boolLit true)]))).map Prod.fst
      = ((tupT 2).flatMap chT).map keyW :=
    stepMap_expand (tyNm 2) (tupT 2) _ r1 (by decide)
      (keyW_inj_of_len _ (by decide)) (by decide)
  have r3 : (stepMap cfgW (tyNm 3) (stepMap cfgW (tyNm 2) (stepMap cfgW (tyNm 1)
      (stepMap cfgW (tyNm 0)
        [((elimBools [] (keyW [])).2, Expr.boolLit true)])))).map Prod.fst
      = ((tupT 3).flatMap chT).map keyW :=
    stepMap_expand (tyNm 3) (tupT 3) _ r2 (by decide)
      (keyW_inj_of_len _ (by decide)) (by decide)
  have r4 : (stepMap cfgW (tyNm 4) (stepMap cfgW (tyNm 3) (stepMap cfgW (tyNm 2)
      (stepMap cfgW (tyNm 1) (stepMap cfgW (tyNm 0)
        [((elimBools [] (keyW [])).2, Expr.boolLit true)]))))).map Prod.fst
      = ((tupT 4).flatMap chT).map keyW :=
    stepMap_expand (tyNm 4) (tupT 4) _ r3 (by decide)
      (keyW_inj_of_len _ (by decide)) (by decide)
  have l0 := stepMap_len_of_expand (tyNm 0) (tupT 0) _ r0
  have l1 := stepMap_len_of_expand (tyNm 1) (tupT 1) _ r1
  have l2 := stepMap_len_of_expand (tyNm 2) (tupT 2) _ r2
  have l3 := stepMap_len_of_expand (tyNm 3) (tupT 3) _ r3
  have l4 := stepMap_len_of_expand (tyNm 4) (tupT 4) _ r4
  show 128 < (instLoop cfgW govW 0 _ (inW 0 :: inW 1 :: inW 2 :: inW 3 ::
    inW 4 :: [])).length
  rw [instLoop_cons_cont cfgW govW 0 _ (inW 0) _ (tyNm 0) rfl rfl
    (by rw [l0]; decide) rfl]
  rw [instLoop_cons_cont cfgW govW 1 _ (inW 1) _ (tyNm 1) rfl rfl
    (by rw [l1]; decide) rfl]
  rw [instLoop_cons_cont cfgW govW 2 _ (inW 2) _ (tyNm 2) rfl rfl
    (by rw [l2]; decide) rfl]
  rw [instLoop_cons_cont cfgW govW 3 _ (inW 3) _ (tyNm 3) rfl rfl
    (by rw [l3]; decide) rfl]
  rw [instLoop_cons_stop cfgW govW 4 _ (inW 4) _ (tyNm 4) rfl rfl
    (by rw [l4]; decide)]
  rw [l4]
  decide

/-- C1: for every refinement term handed to mk_fml: a trivially-false term is
returned unchanged (and the returned obligation is unsatisfiable); otherwise
mk_fml returns the conjunction of the global axioms with the preprocessed
'tgt-precondition ∧ (src-precondition ⇒ refines)'; and the main obligation is
mk_fml applied to the shared domain conjoined with the value and poison
refinement predicates produced by the return type's refinement relation on
the two states' return values. -/
theorem mk_fml_spec (C : SynthCtx) (refines : Expr) (r : Env) :
    (isFalseE refines = true →
      mk_fml C refines = refines ∧ evalB (mk_fml C refines) r = false)
    ∧ (isFalseE refines = false →
      mk_fml C refines = Expr.andE C.axioms_expr
        (preprocess C.srcInputs C.cfg C.gov C.qvars C.uvars
          (Expr.andE C.pre_tgt (Expr.impE C.pre_src refines))))
    ∧ mainFml C = mk_fml C (Expr.andE (Expr.andE (Expr.andE C.dom_a C.dom_b)
        (C.tyRefines C.sv C.tv).2) (C.tyRefines C.sv C.tv).1) := by
  refine ⟨?_, ?_, rfl⟩
  · intro h
    have he : refines = Expr.boolLit false := by
      simpa [isFalseE] using h
    refine ⟨by simp [mk_fml, h], ?_⟩
    simp [mk_fml, h, he, evalB, eval, toB]
  · intro h
    simp [mk_fml, h]

/-- Witness for C1: both branches of mk_fml evaluated on a concrete
context. -/
theorem mk_fml_spec_witness :
    (isFalseE (Expr.boolLit false) = true
      ∧ mk_fml ctxW (Expr.boolLit false) = Expr.boolLit false
      ∧ evalB (mk_fml ctxW (Expr.boolLit false)) envW = false)
    ∧ (isFalseE (Expr.boolLit true) = false
      ∧ mk_fml ctxW (Expr.boolLit true) = Expr.andE ctxW.axioms_expr
          (preprocess ctxW.srcInputs ctxW.cfg ctxW.gov ctxW.qvars ctxW.uvars
            (Expr.andE ctxW.pre_tgt
              (Expr.impE ctxW.pre_src (Expr.boolLit true))))) :=
  ⟨⟨by decide,
    ((mk_fml_spec ctxW (Expr.boolLit false) envW).1 (by decide)).1,
    ((mk_fml_spec ctxW (Expr.boolLit false) envW).1 (by decide)).2⟩,
   ⟨by decide,
    (mk_fml_spec ctxW (Expr.boolLit true) envW).2.1 (by decide)⟩⟩

theorem mainHandler_foldl (m : Model) :
    ∀ (tv : List (Value × StateValue × Bool)) (acc : List (Value × Expr)),
      tv.foldl (fun acc x =>
          if (x.1.kind = ValueKind.input ∨ x.1.kind = ValueKind.constantInput)
              ∧ x.1.name.startsWith "%_reservedc" then
            acc ++ [(x.1, m.eval x.2.1.value)]
          else acc) acc
        = acc ++ reservedEntries m tv := by
  intro tv
  induction tv with
  | nil => intro acc; simp [reservedEntries]
  | cons x rest ih =>
      intro acc
      rw [List.foldl_cons]
      by_cases hc : (x.1.kind = ValueKind.input
          ∨ x.1.kind = ValueKind.constantInput)
          ∧ x.1.name.startsWith "%_reservedc"
      · rw [if_pos hc, ih]
        simp [reservedEntries, List.filterMap_cons, hc]
      · rw [if_neg hc, ih]
        simp [reservedEntries, List.filterMap_cons, hc]

/-- C2 counterexample: a Sat main-obligation result whose target state has an
input without the reserved "%_reservedc" name prefix leaves the
synthesized-constants map empty — so "populated if and only if Sat" fails in
the only-if→if direction as stated. -/
theorem sat_without_holes_leaves_map_empty :
    (Result.sat mW).isSat = true
    ∧ (mainHandler ExtW [(vPlainW, svW, false)] (Result.sat mW)).2 = [] :=
  ⟨rfl, rfl⟩

/-- C2 (amended): the synthesized-constants map is populated only if the main
obligation's result is Sat; on Sat it records exactly, for every target-side
input (or constant input) whose name starts with "%_reservedc", that input's
value evaluated under the witness model — hence it is populated iff Sat
whenever at least one reserved-named input exists; on every other result kind
(Invalid, Timeout, SolverError, Skipped, Unsat) it stays empty. -/
theorem synth_map_iff_sat (E : Ext)
    (tv : List (Value × StateValue × Bool)) (r : Result) :
    ((mainHandler E tv r).2 ≠ [] → r.isSat = true)
    ∧ (∀ m, r = Result.sat m → (mainHandler E tv r).2 = reservedEntries m tv)
    ∧ (r.isSat = false → (mainHandler E tv r).2 = []) := by
  refine ⟨?_, ?_, ?_⟩
  · intro h
    cases r with
    | sat m => rfl
    | invalid => exact absurd rfl h
    | timeout => exact absurd rfl h
    | errorR reason => exact absurd rfl h
    | skip => exact absurd rfl h
    | unsat => exact absurd rfl h
  · intro m hm
    subst hm
    show _ = reservedEntries m tv
    have := mainHandler_foldl m tv []
    simpa [mainHandler] using this
  · intro h
    cases r with
    | sat m => simp [Result.isSat] at h
    | invalid => rfl
    | timeout => rfl
    | errorR reason => rfl
    | skip => rfl
    | unsat => rfl

/-- Witness for C2 (amended): on a Sat result, a reserved-named target input
is recorded and a plain one is not. -/
theorem synth_map_iff_sat_witness :
    (mainHandler ExtW [(vPlainW, svW, false), (vHoleW, svW, false)]
        (Result.sat mW)).2
      = reservedEntries mW [(vPlainW, svW, false), (vHoleW, svW, false)] :=
  (synth_map_iff_sat ExtW [(vPlainW, svW, false), (vHoleW, svW, false)]
    (Result.sat mW)).2.1 mW rfl

/-- C3: evaluation of the code at the failing input — when the domain-loss
obligation's result is Unsat, error() falls through its four result-kind
guards into the counterexample path (calling getModel on a result that has no
model) and the Errors collector does receive a rendered entry from the
domain-loss query, contrary to the claim and to the spec's "no diagnostic
emitted". -/
theorem domain_unsat_emits_diagnostic :
    error ExtW [] srcStW tgtStW Result.unsat none
        "Source is more defined than target" false (fun _ => "")
      = [("Source is more defined than target\n\nExample:\n\nSource:\n\nTarget:\n",
          true)]
    ∧ (synthesize false ctxW ExtW Result.unsat Result.unsat).1
      = [("Source is more defined than target\n\nExample:\n\nSource:\n\nTarget:\n",
          true), ("Unsat", false)] :=
  ⟨rfl, rfl⟩

/-- C6: preprocess returns the plain universal closure in its fallback cases:
budget exhausted on entry yields forall(qvars0, e) with no heuristic applied;
otherwise, after boolean elimination, an empty undef set or an exhausted
budget yields the universal closure of the reduced term over the reduced
quantifier set, with no classifier instantiation. -/
theorem preprocess_fallbacks (srcInputs : List Value) (cfg : Config)
    (gov : MemGov) (q0 uv : List (String × Srt)) (e : Expr) :
    (gov 0 = true → preprocess srcInputs cfg gov q0 uv e = mkForAll q0 e)
    ∧ (gov 0 = false → uv.isEmpty = true ∨ gov 1 = true →
        preprocess srcInputs cfg gov q0 uv e
          = mkForAll (elimBools q0 e).1 (elimBools q0 e).2) := by
  constructor
  · intro h
    unfold preprocess
    rw [if_pos h]
  · intro h1 h2
    unfold preprocess
    rw [if_neg (by simp [h1]), if_pos h2]

/-- A governor that trips from the second query on. -/
def govTrip1 : MemGov := fun k => decide (1 ≤ k)

/-- Witness for C6: both fallbacks evaluated on concrete data — a governor
that is exhausted at entry, and one that trips only at the second check. -/
theorem preprocess_fallbacks_witness :
    ((fun _ => true : MemGov) 0 = true
      ∧ preprocess inputs5W cfgW (fun _ => true) q0W [("u", Srt.bv 2)] eW
        = mkForAll q0W eW)
    ∧ (govTrip1 0 = false ∧ govTrip1 1 = true
      ∧ preprocess inputs5W cfgW govTrip1 q0W [("u", Srt.bv 2)] eW
        = mkForAll (elimBools q0W eW).1 (elimBools q0W eW).2) :=
  ⟨⟨rfl, (preprocess_fallbacks inputs5W cfgW (fun _ => true) q0W
      [("u", Srt.bv 2)] eW).1 rfl⟩,
   ⟨rfl, rfl, (preprocess_fallbacks inputs5W cfgW govTrip1 q0W
      [("u", Srt.bv 2)] eW).2 rfl (Or.inr rfl)⟩⟩

/-- C7: each non-Sat result kind maps one-to-one to its fixed diagnostic, for
both obligations: Invalid to "Invalid expr", Timeout to "Timeout",
SolverError(reason) to "SMT Error: " followed by the reason, Skipped to
"Skip" — and an Unsat main obligation to "Unsat" (with no constants
recorded). -/
theorem result_kind_diagnostics (E : Ext) (errs : List (String × Bool))
    (src tgt : StateModel) (var : Option Value) (msg : String) (cev : Bool)
    (pvv : Model → String) (reason : String)
    (tv : List (Value × StateValue × Bool)) :
    error E errs src tgt Result.invalid var msg cev pvv
        = errs ++ [("Invalid expr", false)]
    ∧ error E errs src tgt Result.timeout var msg cev pvv
        = errs ++ [("Timeout", false)]
    ∧ error E errs src tgt (Result.errorR reason) var msg cev pvv
        = errs ++ [("SMT Error: " ++ reason, false)]
    ∧ error E errs src tgt Result.skip var msg cev pvv
        = errs ++ [("Skip", false)]
    ∧ mainHandler E tv Result.invalid = ([("Invalid expr", false)], [])
    ∧ mainHandler E tv Result.timeout = ([("Timeout", false)], [])
    ∧ mainHandler E tv (Result.errorR reason)
        = ([("SMT Error: " ++ reason, false)], [])
    ∧ mainHandler E tv Result.skip = ([("Skip", false)], [])
    ∧ mainHandler E tv Result.unsat = ([("Unsat", false)], []) :=
  ⟨rfl, rfl, rfl, rfl, rfl, rfl, rfl, rfl, rfl⟩

/-- C8 counterexample: an input whose classifier the model forces to 1
(undef) but whose poison flag evaluates to false renders "poison", not
"undef" — the poison check precedes the classifier check. -/
theorem classifier_undef_rendered_poison :
    mPoisonW.eval (getTyVar varInW) = Expr.bvLit 1 2
    ∧ print_single_varval ExtW mPoisonW varInW (fun _ => "") svW = "poison" :=
  ⟨rfl, rfl⟩

/-- C8 (amended): for every input variable whose 3-valued classifier
evaluates to 1 (undef) under the witness model, the renderer prints "undef"
regardless of the concrete term the model assigns to its value — provided the
value is valid and its poison flag evaluates to constant non-false under the
model (otherwise the earlier invalid/poison branches fire). -/
theorem classifier_undef_renders_undef (E : Ext) (m : Model) (var : Value)
    (pv : Expr → String) (val : StateValue)
    (hvalid : val.valid = true)
    (hconst : isConstE (m.eval val.non_poison) = true)
    (hnf : m.eval val.non_poison ≠ Expr.boolLit false)
    (hkind : var.kind = ValueKind.input)
    (hty : m.eval (getTyVar var) = Expr.bvLit 1 2) :
    print_single_varval E m var pv val = "undef" := by
  unfold print_single_varval
  rw [if_neg (by simp [hvalid]), if_neg (by simp [hconst, hnf]),
    if_pos ⟨hkind, by rw [hty]; rfl⟩]

/-- Witness for C8 (amended): the classifier-undef rendering on a concrete
model and input, with an arbitrary concrete value term assigned. -/
theorem classifier_undef_renders_undef_witness :
    svW.valid = true
    ∧ isConstE (mUndefW.eval svW.non_poison) = true
    ∧ mUndefW.eval svW.non_poison ≠ Expr.boolLit false
    ∧ varInW.kind = ValueKind.input
    ∧ mUndefW.eval (getTyVar varInW) = Expr.bvLit 1 2
    ∧ print_single_varval ExtW mUndefW varInW (fun _ => "") svW = "undef" :=
  ⟨rfl, rfl, by decide, rfl, rfl,
   classifier_undef_renders_undef ExtW mUndefW varInW (fun _ => "") svW
     rfl rfl (by decide) rfl rfl⟩

/-- C9: the Errors output and the synthesized-constants map of synthesize are
identical whether the ConstantSynth object was constructed with
check_each_var true or false: the diagnostics are rendered with the local
check_each_var fixed to false and the constructor's tgt_instrs map is never
consulted. -/
theorem synthesize_check_each_var_independent (c1 c2 : Bool) (C : SynthCtx)
    (E : Ext) (rDom rMain : Result) :
    synthesize c1 C E rDom rMain = synthesize c2 C E rDom rMain := rfl

/-- C10: the undef probe classifies every constant expression as not-undef
without consulting the solver (the answer is independent of the probe), and
classifies every non-constant expression exactly by the unsatisfiability
probe on the universal closure over its free variables of
"#undef ≠ expression". -/
theorem is_undef_const_no_query (e : Expr) (p p2 : Expr → Bool) :
    (isConstE e = true → is_undef p e = false ∧ is_undef p e = is_undef p2 e)
    ∧ (isConstE e = false → is_undef p e
        = p (mkForAll (varsOf e)
            (Expr.notE (Expr.eqE (Expr.evar "#undef" (srtOf e)) e)))) := by
  constructor
  · intro h
    unfold is_undef
    rw [if_pos h, if_pos h]
    exact ⟨rfl, rfl⟩
  · intro h
    unfold is_undef
    rw [if_neg (by simp [h])]

/-- Witness for C10: a bit-vector constant is classified not-undef under two
disagreeing probes, and a variable is classified exactly by the probe. -/
theorem is_undef_const_no_query_witness :
    (isConstE (Expr.bvLit 3 2) = true
      ∧ is_undef (fun _ => true) (Expr.bvLit 3 2) = false
      ∧ is_undef (fun _ => true) (Expr.bvLit 3 2)
          = is_undef (fun _ => false) (Expr.bvLit 3 2))
    ∧ (isConstE (Expr.evar "q" (Srt.bv 2)) = false
      ∧ is_undef (fun _ => true) (Expr.evar "q" (Srt.bv 2))
          = (fun _ => true) (mkForAll (varsOf (Expr.evar "q" (Srt.bv 2)))
              (Expr.notE (Expr.eqE
                (Expr.evar "#undef" (srtOf (Expr.evar "q" (Srt.bv 2))))
                (Expr.evar "q" (Srt.bv 2)))))) :=
  ⟨⟨by decide,
    ((is_undef_const_no_query (Expr.bvLit 3 2) (fun _ => true)
      (fun _ => false)).1 (by decide)).1,
    ((is_undef_const_no_query (Expr.bvLit 3 2) (fun _ => true)
      (fun _ => false)).1 (by decide)).2⟩,
   ⟨by decide,
    (is_undef_const_no_query (Expr.evar "q" (Srt.bv 2)) (fun _ => true)
      (fun _ => false)).2 (by decide)⟩⟩

end VectorSynth
